import Mathlib

/-!
Verification development for the design-thinking-coach frontend.

The functions below are shallow embeddings of the TypeScript sources:
- data model from src/types.ts,
- updateFrameworkProgress, exportUtils.generateStructuredOutput,
  chatAPI.loadFrameworkStages and sessionUtils.getSessionId from src/utils.ts,
- progressPercentage, loadFrameworkStages and handleSendMessage from App.tsx
  (reproduced in the repository README).

JavaScript Record-of-string-to-boolean values are modelled as insertion-ordered
association lists with the usual JS object semantics (property write updates the
first matching entry in place, otherwise appends).  JavaScript strings are
modelled as Lean strings; toLowerCase is String.toLower and
String.prototype.includes is substring (list-infix) containment.
-/

namespace DTCoach

/-- Message roles, from the union type in src/types.ts. -/
inductive Role where
  | user
  | assistant
  | system
  deriving DecidableEq, Repr

/-- Chat message, from interface Message in src/types.ts. -/
structure Message where
  type : Role
  content : String
  timestamp : Nat
  isStructuredSummary : Bool := false
  deriving DecidableEq, Repr

/-- Framework stage, from interface FrameworkStage in src/types.ts. -/
structure FrameworkStage where
  key : String
  title : String
  description : String
  icon : String
  keywords : List String
  deriving DecidableEq, Repr

/-- A JS object of type Record-of-string-to-boolean: insertion-ordered
association list. -/
abbrev ProgressMap := List (String × Bool)

/-- JS hay.includes(needle): needle occurs as a contiguous substring of hay. -/
def jsIncludes (hay needle : String) : Bool :=
  decide (needle.data <:+: hay.data)

/-- JS s.toLowerCase(): lower-case every character (ASCII letters; the sources
only ever compare ASCII keyword text). -/
def jsToLower (s : String) : String :=
  String.mk (s.data.map Char.toLower)

/-- JS object read m[k]: value of the first entry with key k, if any. -/
def getVal : ProgressMap → String → Option Bool
  | [], _ => none
  | p :: rest, k => if p.1 = k then some p.2 else getVal rest k

/-- JS object write m[k] = v: update the first entry with key k in place,
otherwise append a new entry (insertion order). -/
def setKey : ProgressMap → String → Bool → ProgressMap
  | [], k, v => [(k, v)]
  | p :: rest, k, v => if p.1 = k then (k, v) :: rest else p :: setKey rest k v

/-- Object.values(m).filter(v equals true).length from App.tsx line 437. -/
def countTrue (m : ProgressMap) : Nat :=
  (m.filter fun p => p.2 == true).length

/-- The keyword test of updateFrameworkProgress (src/utils.ts lines 100-102):
stage.keywords.some(keyword means lower.includes(keyword.toLowerCase())),
where lower = content.toLowerCase() is inlined here. -/
def stageMatches (content : String) (stage : FrameworkStage) : Bool :=
  stage.keywords.any fun keyword => jsIncludes (jsToLower content) (jsToLower keyword)

/-- updateFrameworkProgress from src/utils.ts lines 92-110: copy the progress
map, then for every stage whose keyword test fires set its key to true.
The source's defensive stage.keywords-or-empty is the identity in this model
because keywords is a mandatory field of FrameworkStage. -/
def updateFrameworkProgress (content : String) (frameworkSteps : List FrameworkStage)
    (currentProgress : ProgressMap) : ProgressMap :=
  frameworkSteps.foldl
    (fun newProgress stage =>
      if stageMatches content stage then setKey newProgress stage.key true
      else newProgress)
    currentProgress

/-- progressPercentage from App.tsx lines 436-438:
Math.round(100 * countTrue / length) if there are stages, else 0.
For a nonnegative rational 100 t / n, Math.round (round half away from zero,
here half up) is the floor of (100 t / n) + 1/2, i.e. Nat division
(200 t + n) / (2 n). -/
def progressPercentage (frameworkSteps : List FrameworkStage)
    (frameworkProgress : ProgressMap) : Nat :=
  if 0 < frameworkSteps.length then
    (200 * countTrue frameworkProgress + frameworkSteps.length)
      / (2 * frameworkSteps.length)
  else 0

/-- Truthiness of frameworkProgress[step.key] in a boolean-valued object:
true exactly for an entry with value true (absent keys are undefined). -/
def isCompletedIn (frameworkProgress : ProgressMap) (step : FrameworkStage) : Bool :=
  (getVal frameworkProgress step.key).getD false

/-- One stage section of exportUtils.generateStructuredOutput
(src/utils.ts lines 128-141): header line with icon and title, description,
then the first assistant message whose lower-cased content contains the
lower-cased stage key (the filter-then-index-0 of the source). -/
def sectionFor (messages : List Message) (step : FrameworkStage) : String :=
  let head := "## " ++ step.icon ++ " " ++ step.title ++ "\n"
      ++ step.description ++ "\n\n"
  match messages.filter (fun msg =>
      msg.type == Role.assistant && jsIncludes (jsToLower msg.content) (jsToLower step.key)) with
  | [] => head
  | m :: _ => head ++ m.content ++ "\n\n"

/-- messages.filter(m means m.type equals user).length from src/utils.ts line 145. -/
def userMessageCount (messages : List Message) : Nat :=
  (messages.filter fun m => m.type == Role.user).length

/-- exportUtils.generateStructuredOutput from src/utils.ts lines 114-148.
The wall-clock date string new Date().toLocaleDateString is passed in as the
parameter dateStr; the progressPercentage argument of the source is the
parameter progressPct. -/
def generateStructuredOutput (dateStr : String) (messages : List Message)
    (frameworkSteps : List FrameworkStage) (frameworkProgress : ProgressMap)
    (progressPct : Nat) : String :=
  let completedSteps := frameworkSteps.filter (isCompletedIn frameworkProgress)
  let header := "# Design Thinking Analyse\n\n" ++ "**Datum:** " ++ dateStr
      ++ "\n" ++ "**Fortschritt:** " ++ toString progressPct ++ "%\n\n"
  let body := completedSteps.foldl (fun output step => output ++ sectionFor messages step) header
  body ++ "---\n\n" ++ "**Generiert durch Design Thinking Coach v1.0**\n"
      ++ "**Session-Nachrichten:** " ++ toString (userMessageCount messages) ++ "\n"

/-- Concatenation of a list of strings, in order. -/
def joinStrings : List String → String
  | [] => ""
  | s :: rest => s ++ joinStrings rest

/-- Modelled from the claim wording, verbatim reading: the section body is the
first assistant message whose text contains the stage key as a substring
(case-sensitive, exactly as written). -/
def sectionSpecVerbatim (messages : List Message) (step : FrameworkStage) : String :=
  "## " ++ step.icon ++ " " ++ step.title ++ "\n" ++ step.description ++ "\n\n"
    ++ match messages.find? (fun msg =>
        msg.type == Role.assistant && jsIncludes msg.content step.key) with
      | some m => m.content ++ "\n\n"
      | none => ""

/-- Modelled from the claim wording with the substring test read
case-insensitively (both sides lower-cased). -/
def sectionSpecCI (messages : List Message) (step : FrameworkStage) : String :=
  "## " ++ step.icon ++ " " ++ step.title ++ "\n" ++ step.description ++ "\n\n"
    ++ match messages.find? (fun msg =>
        msg.type == Role.assistant && jsIncludes (jsToLower msg.content) (jsToLower step.key)) with
      | some m => m.content ++ "\n\n"
      | none => ""

/-- Modelled from the claim wording: fixed header, then one section per stage
whose progress entry is true, in the configured stage order, then the summary
trailer counting user-authored messages; verbatim (case-sensitive) body test. -/
def renderSpecVerbatim (dateStr : String) (messages : List Message)
    (frameworkSteps : List FrameworkStage) (frameworkProgress : ProgressMap)
    (progressPct : Nat) : String :=
  "# Design Thinking Analyse\n\n" ++ "**Datum:** " ++ dateStr
    ++ "\n" ++ "**Fortschritt:** " ++ toString progressPct ++ "%\n\n"
    ++ joinStrings ((frameworkSteps.filter fun s => getVal frameworkProgress s.key == some true).map
        (sectionSpecVerbatim messages))
    ++ "---\n\n" ++ "**Generiert durch Design Thinking Coach v1.0**\n"
    ++ "**Session-Nachrichten:** "
    ++ toString (messages.countP fun m => m.type == Role.user) ++ "\n"

/-- Modelled from the claim wording, with the body substring test read
case-insensitively. -/
def renderSpecCI (dateStr : String) (messages : List Message)
    (frameworkSteps : List FrameworkStage) (frameworkProgress : ProgressMap)
    (progressPct : Nat) : String :=
  "# Design Thinking Analyse\n\n" ++ "**Datum:** " ++ dateStr
    ++ "\n" ++ "**Fortschritt:** " ++ toString progressPct ++ "%\n\n"
    ++ joinStrings ((frameworkSteps.filter fun s => getVal frameworkProgress s.key == some true).map
        (sectionSpecCI messages))
    ++ "---\n\n" ++ "**Generiert durch Design Thinking Coach v1.0**\n"
    ++ "**Session-Nachrichten:** "
    ++ toString (messages.countP fun m => m.type == Role.user) ++ "\n"

/-- Everything generateStructuredOutput emits after the date string: the rest
of the header, the stage sections, and the trailer.  Independent of the date. -/
def outputAfterDate (messages : List Message) (frameworkSteps : List FrameworkStage)
    (frameworkProgress : ProgressMap) (progressPct : Nat) : String :=
  "\n" ++ "**Fortschritt:** " ++ toString progressPct ++ "%\n\n"
    ++ joinStrings ((frameworkSteps.filter (isCompletedIn frameworkProgress)).map
        (sectionFor messages))
    ++ "---\n\n" ++ "**Generiert durch Design Thinking Coach v1.0**\n"
    ++ "**Session-Nachrichten:** " ++ toString (userMessageCount messages) ++ "\n"

/-- JS s.trim(): drop leading and trailing whitespace. -/
def jsTrim (s : String) : String :=
  String.mk (((s.data.dropWhile Char.isWhitespace).reverse.dropWhile Char.isWhitespace).reverse)

/-- Shape of the /api/chat JSON response, from interface ChatResponse in
src/types.ts: both fields optional. -/
structure ChatResponseShape where
  message : Option String
  reply : Option String
  deriving DecidableEq, Repr

/-- JS truthiness of an optional string: null, undefined and the empty string
are falsy. -/
def jsTruthyStr : Option String → Option String
  | some s => if s = "" then none else some s
  | none => none

/-- The assistant text picked in handleSendMessage (App.tsx line 494):
response.message, else response.reply, else the fallback text, where the
or-chain skips falsy (missing or empty) strings. -/
def chatReplyContent (response : ChatResponseShape) : String :=
  match jsTruthyStr response.message with
  | some s => s
  | none =>
    match jsTruthyStr response.reply with
    | some s => s
    | none => "Keine Antwort erhalten"

/-- The error text built in the catch branch of handleSendMessage
(App.tsx lines 510-518), as a function of the caught error message. -/
def connectionErrorContent (e : String) : String :=
  "Entschuldigung, es gab einen Fehler bei der Verbindung." ++
    (if jsIncludes e "Failed to fetch" then
      " Bitte stellen Sie sicher, dass der Backend-Server läuft (http://localhost:8000)."
    else if jsIncludes e "404" then
      " API-Endpoint nicht gefunden. Überprüfen Sie die Backend-Konfiguration."
    else "")

/-- The chat-related React state that handleSendMessage reads and writes. -/
structure AppChatState where
  messages : List Message
  frameworkProgress : ProgressMap
  deriving DecidableEq, Repr

/-- handleSendMessage from App.tsx lines 472-529.  The two Date.now() calls
are the parameters tUser and tReply; the awaited chatAPI.sendMessage outcome
is the result parameter (ok with the parsed response, or error with the thrown
error message).  The early return fires when the trimmed input is empty or a
request is already in flight; otherwise the user message is appended first,
then either the assistant reply is appended and the progress map updated, or
the connection-error message is appended and the progress map left unchanged. -/
def handleSendMessage (newMessage : String) (loading : Bool)
    (frameworkSteps : List FrameworkStage) (st : AppChatState)
    (tUser tReply : Nat) (result : Except String ChatResponseShape) : AppChatState :=
  if jsTrim newMessage = "" || loading then st
  else
    let userMsg : Message := { type := Role.user, content := jsTrim newMessage, timestamp := tUser }
    let msgs1 := st.messages ++ [userMsg]
    match result with
    | Except.ok response =>
        let assistantMsg : Message :=
          { type := Role.assistant, content := chatReplyContent response, timestamp := tReply }
        { messages := msgs1 ++ [assistantMsg]
          frameworkProgress :=
            updateFrameworkProgress assistantMsg.content frameworkSteps st.frameworkProgress }
    | Except.error e =>
        { messages := msgs1 ++
            [{ type := Role.assistant, content := connectionErrorContent e, timestamp := tReply }]
          frameworkProgress := st.frameworkProgress }

/-- A stage object as it appears in the /api/config JSON before normalisation:
icon and keywords may be absent. -/
structure RawStage where
  key : String
  title : String
  description : String
  icon : Option String
  keywords : Option (List String)
  deriving DecidableEq, Repr

namespace chatAPI

/-- The stage normalisation of chatAPI.loadFrameworkStages (src/utils.ts
lines 40-46): icon falls back to the pin character when falsy (absent or
empty), keywords fall back to the empty list when absent. -/
def normalizeStage (stage : RawStage) : FrameworkStage :=
  { key := stage.key
    title := stage.title
    description := stage.description
    icon := (jsTruthyStr stage.icon).getD "üìå"
    keywords := stage.keywords.getD [] }

/-- chatAPI.loadFrameworkStages from src/utils.ts lines 29-50, as a function
of the fetch outcome: response.ok flag, HTTP status, and the stage list found
at data.config.framework.stages (none when any of those keys is missing).
A non-ok response or a missing stage list is an error (a thrown exception in
the source); otherwise the normalised stages are returned. -/
def loadFrameworkStages (ok : Bool) (status : Nat)
    (stages : Option (List RawStage)) : Except String (List FrameworkStage) :=
  if !ok then Except.error ("API config endpoint failed: " ++ toString status)
  else
    match stages with
    | some ss => Except.ok (ss.map normalizeStage)
    | none => Except.error "Framework stages not found in config"

end chatAPI

/-- The framework-related React state written by App.loadFrameworkStages. -/
structure FrameworkState where
  frameworkSteps : List FrameworkStage
  frameworkProgress : ProgressMap
  deriving DecidableEq, Repr

/-- loadFrameworkStages from App.tsx lines 448-469, as a function of the
previous state and the chatAPI.loadFrameworkStages outcome.  On success the
stage list is replaced and the progress map re-initialised to all-false; in
the catch branch both are overwritten with empty values.  The previous state
is never read. -/
def appLoadFrameworkStages (_prev : FrameworkState)
    (result : Except String (List FrameworkStage)) : FrameworkState :=
  match result with
  | Except.ok stages =>
      { frameworkSteps := stages
        frameworkProgress := stages.foldl (fun m s => setKey m s.key false) [] }
  | Except.error _ => { frameworkSteps := [], frameworkProgress := [] }

namespace sessionUtils

/-- sessionUtils.getSessionId from src/utils.ts lines 54-63, as a function of
Date.now() and the stored localStorage value (none when absent).  A falsy
stored value (absent or empty) triggers generation and storage of a fresh id;
otherwise the stored id is returned and the store left unchanged.  Returns the
id together with the new store contents. -/
def getSessionId (now : Nat) (store : Option String) : String × Option String :=
  match store with
  | some s =>
      if s = "" then
        let id := "session-" ++ toString now
        (id, some id)
      else (s, some s)
  | none =>
      let id := "session-" ++ toString now
      (id, some id)

end sessionUtils

/-- Concrete stage used by scenario A of the spec and by witnesses. -/
def problemStage : FrameworkStage :=
  { key := "problem", title := "Problem", description := "Kernproblem"
    icon := "P", keywords := ["problem", "issue"] }

theorem getVal_setKey_self (m : ProgressMap) (k : String) (v : Bool) :
    getVal (setKey m k v) k = some v := by
  induction m with
  | nil => simp [setKey, getVal]
  | cons p rest ih =>
      by_cases h : p.1 = k
      · simp [setKey, h, getVal]
      · simp [setKey, h, getVal, ih]

theorem getVal_setKey_ne (m : ProgressMap) (k j : String) (v : Bool) (h : j ≠ k) :
    getVal (setKey m k v) j = getVal m j := by
  induction m with
  | nil => simp [setKey, getVal, Ne.symm h]
  | cons p rest ih =>
      by_cases hp : p.1 = k
      · rw [show setKey (p :: rest) k v = (k, v) :: rest from by simp [setKey, hp]]
        simp [getVal, Ne.symm h, hp]
      · rw [show setKey (p :: rest) k v = p :: setKey rest k v from by simp [setKey, hp]]
        simp [getVal, ih]

theorem setKey_eq_self_of_true (m : ProgressMap) (k : String)
    (h : getVal m k = some true) : setKey m k true = m := by
  induction m with
  | nil => simp [getVal] at h
  | cons p rest ih =>
      by_cases hp : p.1 = k
      · have hv : p.2 = true := by
          have h' := h
          simp [getVal, hp] at h'
          exact h'
        obtain ⟨a, b⟩ := p
        simp only [setKey, if_pos hp]
        simp only at hp hv
        rw [hp, hv]
      · have h' : getVal rest k = some true := by
          have h'' := h
          simpa [getVal, hp] using h''
        simp [setKey, hp, ih h']

theorem updateFrameworkProgress_nil (content : String) (cur : ProgressMap) :
    updateFrameworkProgress content [] cur = cur := rfl

theorem updateFrameworkProgress_cons (content : String) (s : FrameworkStage)
    (rest : List FrameworkStage) (cur : ProgressMap) :
    updateFrameworkProgress content (s :: rest) cur =
      updateFrameworkProgress content rest
        (if stageMatches content s then setKey cur s.key true else cur) := rfl

theorem update_keeps_true (content : String) (frameworkSteps : List FrameworkStage) :
    ∀ (cur : ProgressMap) (k : String), getVal cur k = some true →
      getVal (updateFrameworkProgress content frameworkSteps cur) k = some true := by
  induction frameworkSteps with
  | nil => intro cur k h; exact h
  | cons s rest ih =>
      intro cur k h
      rw [updateFrameworkProgress_cons]
      apply ih
      by_cases hm : stageMatches content s = true
      · rw [if_pos hm]
        by_cases hk : k = s.key
        · subst hk; rw [getVal_setKey_self]
        · rw [getVal_setKey_ne _ _ _ _ hk]; exact h
      · rw [if_neg hm]; exact h

theorem update_sets_matched (content : String) (frameworkSteps : List FrameworkStage) :
    ∀ (cur : ProgressMap) (s : FrameworkStage), s ∈ frameworkSteps →
      stageMatches content s = true →
      getVal (updateFrameworkProgress content frameworkSteps cur) s.key = some true := by
  induction frameworkSteps with
  | nil => intro cur s hs _; simp at hs
  | cons t rest ih =>
      intro cur s hs hm
      rw [updateFrameworkProgress_cons]
      rcases List.mem_cons.mp hs with rfl | hmem
      · apply update_keeps_true
        rw [if_pos hm, getVal_setKey_self]
      · exact ih _ s hmem hm

theorem update_no_match (content : String) (frameworkSteps : List FrameworkStage) (k : String) :
    (∀ s ∈ frameworkSteps, s.key = k → stageMatches content s = false) →
    ∀ cur : ProgressMap,
      getVal (updateFrameworkProgress content frameworkSteps cur) k = getVal cur k := by
  induction frameworkSteps with
  | nil => intro _ cur; rfl
  | cons t rest ih =>
      intro h cur
      rw [updateFrameworkProgress_cons]
      have hrest := ih fun s hs => h s (List.mem_cons_of_mem _ hs)
      by_cases hm : stageMatches content t = true
      · have hk : t.key ≠ k := by
          intro hk
          have hfalse := h t (List.mem_cons_self _ _) hk
          rw [hm] at hfalse
          cases hfalse
        rw [if_pos hm, hrest, getVal_setKey_ne _ _ _ _ (Ne.symm hk)]
      · rw [if_neg hm]
        exact hrest cur

theorem update_fixpoint (content : String) (frameworkSteps : List FrameworkStage) :
    ∀ m : ProgressMap,
      (∀ s ∈ frameworkSteps, stageMatches content s = true → getVal m s.key = some true) →
      updateFrameworkProgress content frameworkSteps m = m := by
  induction frameworkSteps with
  | nil => intro m _; rfl
  | cons t rest ih =>
      intro m h
      by_cases hm : stageMatches content t = true
      · rw [updateFrameworkProgress_cons, if_pos hm,
          setKey_eq_self_of_true _ _ (h t (List.mem_cons_self _ _) hm)]
        exact ih m fun s hs => h s (List.mem_cons_of_mem _ hs)
      · rw [updateFrameworkProgress_cons, if_neg hm]
        exact ih m fun s hs => h s (List.mem_cons_of_mem _ hs)

/-- C1: progress update is monotonic — for every progress map, stage list and
assistant text, updateFrameworkProgress never turns an entry that is true in
the input map into false in the output map; once a stage is covered, applying
the update again with any text leaves it covered. -/
theorem claim1_update_monotone (content : String) (frameworkSteps : List FrameworkStage)
    (currentProgress : ProgressMap) (k : String)
    (h : getVal currentProgress k = some true) :
    getVal (updateFrameworkProgress content frameworkSteps currentProgress) k = some true :=
  update_keeps_true content frameworkSteps currentProgress k h

/-- Witness for C1 at a concrete input: a covered stage stays covered even
when the new text matches no keyword. -/
theorem claim1_update_monotone_witness :
    getVal [("problem", true)] "problem" = some true ∧
    getVal (updateFrameworkProgress "no keywords occur in this text"
      [problemStage] [("problem", true)]) "problem" = some true :=
  ⟨by decide, claim1_update_monotone "no keywords occur in this text"
    [problemStage] [("problem", true)] "problem" (by decide)⟩

/-- C5: applying updateFrameworkProgress twice with the same text is
idempotent — the second application returns the progress map of the first
application unchanged (so it unmarks nothing the first marked), and the first
application keeps every originally marked stage marked (the result is the same
or a superset of the original). -/
theorem claim5_update_idempotent (content : String) (frameworkSteps : List FrameworkStage)
    (currentProgress : ProgressMap) :
    updateFrameworkProgress content frameworkSteps
        (updateFrameworkProgress content frameworkSteps currentProgress)
      = updateFrameworkProgress content frameworkSteps currentProgress
    ∧ (∀ k, getVal (updateFrameworkProgress content frameworkSteps
          (updateFrameworkProgress content frameworkSteps currentProgress)) k
        = getVal (updateFrameworkProgress content frameworkSteps currentProgress) k)
    ∧ (∀ k, getVal currentProgress k = some true →
        getVal (updateFrameworkProgress content frameworkSteps currentProgress) k = some true) := by
  have heq := update_fixpoint content frameworkSteps
    (updateFrameworkProgress content frameworkSteps currentProgress)
    fun s hs hm => update_sets_matched content frameworkSteps currentProgress s hs hm
  exact ⟨heq, fun k => by rw [heq],
    fun k hk => update_keeps_true content frameworkSteps currentProgress k hk⟩

/-- Witness for C5 at a concrete input. -/
theorem claim5_update_idempotent_witness :
    getVal [("other", true)] "other" = some true ∧
    getVal (updateFrameworkProgress "some reply text" [problemStage]
      [("other", true)]) "other" = some true :=
  ⟨by decide, (claim5_update_idempotent "some reply text" [problemStage]
    [("other", true)]).2.2 "other" (by decide)⟩

/-- C2: updateFrameworkProgress sets a stage's entry to true exactly when some
keyword of the stage, lower-cased, is a substring of the lower-cased assistant
text — any matching stage in the list ends up with entry true, an entry whose
key is matched by no stage of the list is left unchanged, the match condition
is exactly case-insensitive substring containment of some keyword, and
scenario A holds: with the single problem stage and the reply "I see the core
problem here" the problem entry becomes true and the percentage is 100. -/
theorem claim2_update_spec :
    (∀ (content : String) (frameworkSteps : List FrameworkStage) (cur : ProgressMap)
        (s : FrameworkStage), s ∈ frameworkSteps → stageMatches content s = true →
        getVal (updateFrameworkProgress content frameworkSteps cur) s.key = some true)
    ∧ (∀ (content : String) (frameworkSteps : List FrameworkStage) (cur : ProgressMap)
        (k : String), (∀ s ∈ frameworkSteps, s.key = k → stageMatches content s = false) →
        getVal (updateFrameworkProgress content frameworkSteps cur) k = getVal cur k)
    ∧ (∀ (content : String) (s : FrameworkStage),
        stageMatches content s = true ↔
          ∃ kw ∈ s.keywords, (jsToLower kw).data <:+: (jsToLower content).data)
    ∧ (getVal (updateFrameworkProgress "I see the core problem here" [problemStage]
          [("problem", false)]) "problem" = some true
       ∧ progressPercentage [problemStage]
          (updateFrameworkProgress "I see the core problem here" [problemStage]
            [("problem", false)]) = 100) := by
  refine ⟨fun c fs cur s hs hm => update_sets_matched c fs cur s hs hm,
    fun c fs cur k h => update_no_match c fs k h cur,
    fun c s => ?_, by decide, by decide⟩
  simp [stageMatches, List.any_eq_true, jsIncludes]

/-- Witness for C2 at a concrete input (the first conjunct, scenario A). -/
theorem claim2_update_spec_witness :
    (problemStage ∈ [problemStage]
      ∧ stageMatches "I see the core problem here" problemStage = true)
    ∧ getVal (updateFrameworkProgress "I see the core problem here" [problemStage]
        [("problem", false)]) problemStage.key = some true :=
  ⟨⟨by decide, by decide⟩,
    claim2_update_spec.1 "I see the core problem here" [problemStage]
      [("problem", false)] problemStage (by decide) (by decide)⟩

/-- C9: keyword edge cases — a stage whose keyword list is empty never fires,
so an entry whose key belongs only to keyword-less stages is left unchanged,
while a stage whose keyword list contains the empty string fires on every
text (the empty string is a substring of everything), so its entry always
becomes true. -/
theorem claim9_keyword_edge_cases :
    (∀ (content : String) (frameworkSteps : List FrameworkStage) (cur : ProgressMap)
        (k : String), (∀ s ∈ frameworkSteps, s.key = k → s.keywords = []) →
        getVal (updateFrameworkProgress content frameworkSteps cur) k = getVal cur k)
    ∧ (∀ (content : String) (frameworkSteps : List FrameworkStage) (cur : ProgressMap)
        (s : FrameworkStage), s ∈ frameworkSteps → "" ∈ s.keywords →
        getVal (updateFrameworkProgress content frameworkSteps cur) s.key = some true) := by
  constructor
  · intro content fs cur k h
    refine update_no_match content fs k (fun s hs hk => ?_) cur
    simp [stageMatches, h s hs hk]
  · intro content fs cur s hs hkw
    refine update_sets_matched content fs cur s hs ?_
    refine List.any_eq_true.mpr ⟨"", hkw, ?_⟩
    simp [jsIncludes, jsToLower]

/-- Stage with an empty keyword list, used by the C9 witness. -/
def keywordlessStage : FrameworkStage :=
  { key := "k", title := "", description := "", icon := "", keywords := [] }

/-- Witness for C9 at a concrete input: a keyword-less stage leaves the map
unchanged. -/
theorem claim9_keyword_edge_cases_witness :
    (∀ s ∈ [keywordlessStage], s.key = "k" → s.keywords = []) ∧
    getVal (updateFrameworkProgress "problem text" [keywordlessStage]
      [("k", false)]) "k" = getVal [("k", false)] "k" :=
  ⟨by decide, claim9_keyword_edge_cases.1 "problem text" [keywordlessStage]
    [("k", false)] "k" (by decide)⟩

/-- Single keyword-free stage with key a, used in the C3 counterexample. -/
def stageA : FrameworkStage :=
  { key := "a", title := "", description := "", icon := "", keywords := [] }

/-- Two hundred stages with distinct keys k0 .. k199, used in the C3
counterexample. -/
def manyStages : List FrameworkStage :=
  (List.range 200).map fun i =>
    { key := "k" ++ toString i, title := "", description := "", icon := "", keywords := [] }

/-- Progress map with exactly one entry per key of manyStages, true for every
stage except k0. -/
def manyProg : ProgressMap :=
  (List.range 200).map fun i => ("k" ++ toString i, decide (0 < i))

set_option maxRecDepth 40000 in
/-- C3 counterexample: the rounded percentage of App.tsx lines 436-438 counts
the true entries of the whole progress map, so a map with keys outside the
stage list yields 200, outside the claimed range 0..100; and even for a map
with exactly one entry per stage key, 199 covered stages out of 200 round
(99.5 percent) up to 100 although stage k0 is not covered, refuting the
claimed equivalence of 100 percent with full coverage. -/
theorem claim3_percentage_counterexample :
    progressPercentage [stageA] [("a", true), ("b", true)] = 200
    ∧ progressPercentage manyStages manyProg = 100
    ∧ manyProg.map Prod.fst = manyStages.map FrameworkStage.key
    ∧ getVal manyProg "k0" = some false :=
  ⟨by decide, by decide, by decide, by decide⟩

theorem countTrue_le_length (m : ProgressMap) : countTrue m ≤ m.length :=
  List.length_filter_le _ _

theorem countTrue_eq_length_iff (m : ProgressMap) :
    countTrue m = m.length ↔ ∀ p ∈ m, p.2 = true := by
  induction m with
  | nil => simp [countTrue]
  | cons p rest ih =>
      cases hp2 : p.2 with
      | true => simp [countTrue, List.filter_cons, hp2, ih]
      | false =>
          have hle := countTrue_le_length rest
          constructor
          · intro hlen
            exfalso
            have hlen' : countTrue rest = rest.length + 1 := by
              simpa [countTrue, List.filter_cons, hp2] using hlen
            omega
          · intro hall
            have hfalse := hall p (List.mem_cons_self _ _)
            rw [hp2] at hfalse
            cases hfalse

theorem getVal_mem_of_nodup (m : ProgressMap) (hnd : (m.map Prod.fst).Nodup)
    (p : String × Bool) (hp : p ∈ m) : getVal m p.1 = some p.2 := by
  induction m with
  | nil => simp at hp
  | cons q rest ih =>
      simp only [List.map_cons, List.nodup_cons] at hnd
      rcases List.mem_cons.mp hp with rfl | hmem
      · simp [getVal]
      · have hne : q.1 ≠ p.1 := by
          intro he
          exact hnd.1 (he ▸ List.mem_map_of_mem Prod.fst hmem)
        simp [getVal, hne, ih hnd.2 hmem]

theorem getVal_all_true (m : ProgressMap) (h : ∀ p ∈ m, p.2 = true) (k : String)
    (hk : k ∈ m.map Prod.fst) : getVal m k = some true := by
  induction m with
  | nil => simp at hk
  | cons q rest ih =>
      by_cases hq : q.1 = k
      · have hv : q.2 = true := h q (List.mem_cons_self _ _)
        simp [getVal, hq, hv]
      · have hk2 : k ∈ q.1 :: rest.map Prod.fst := by rwa [List.map_cons] at hk
        rcases List.mem_cons.mp hk2 with he | hmem
        · exact absurd he.symm hq
        · simp [getVal, hq, ih (fun p hp => h p (List.mem_cons_of_mem _ hp)) hmem]

/-- C3 (amended): for a well-formed progress map — exactly one entry per
configured stage key, stage keys distinct, as the data-model invariants
require — the rounded percentage is at most 100, it is 0 for an empty stage
list, for a nonempty stage list full coverage gives exactly 100, and
conversely, when there are fewer than 200 stages, a percentage of 100 forces
every stage entry to be true (with at least 200 stages rounding alone can
reach 100, and with an empty stage list the percentage is 0 although full
coverage holds vacuously — see the counterexample). -/
theorem claim3_percentage_props (frameworkSteps : List FrameworkStage) (prog : ProgressMap)
    (hkeys : prog.map Prod.fst = frameworkSteps.map FrameworkStage.key)
    (hnodup : (frameworkSteps.map FrameworkStage.key).Nodup) :
    progressPercentage frameworkSteps prog ≤ 100
    ∧ (frameworkSteps = [] → progressPercentage frameworkSteps prog = 0)
    ∧ (frameworkSteps ≠ [] → (∀ s ∈ frameworkSteps, getVal prog s.key = some true) →
        progressPercentage frameworkSteps prog = 100)
    ∧ (frameworkSteps.length ≤ 199 → progressPercentage frameworkSteps prog = 100 →
        ∀ s ∈ frameworkSteps, getVal prog s.key = some true) := by
  have hlen : prog.length = frameworkSteps.length := by
    have hcg := congrArg List.length hkeys
    simpa using hcg
  have ht : countTrue prog ≤ frameworkSteps.length := hlen ▸ countTrue_le_length prog
  refine ⟨?_, ?_, ?_, ?_⟩
  · by_cases h0 : 0 < frameworkSteps.length
    · have h2n : 0 < 2 * frameworkSteps.length := by omega
      have hlt : (200 * countTrue prog + frameworkSteps.length)
          / (2 * frameworkSteps.length) < 101 := by
        rw [Nat.div_lt_iff_lt_mul h2n]
        omega
      simp only [progressPercentage, if_pos h0]
      omega
    · simp only [progressPercentage, if_neg h0]
      omega
  · intro he
    subst he
    rfl
  · intro hne hall
    have hpos : 0 < frameworkSteps.length := List.length_pos.mpr hne
    have hprogkeys : (prog.map Prod.fst).Nodup := by rw [hkeys]; exact hnodup
    have halltrue : ∀ p ∈ prog, p.2 = true := by
      intro p hp
      have hkmem : p.1 ∈ frameworkSteps.map FrameworkStage.key := by
        rw [← hkeys]
        exact List.mem_map_of_mem Prod.fst hp
      rcases List.mem_map.mp hkmem with ⟨s, hs, hskey⟩
      have h1 : getVal prog p.1 = some p.2 := getVal_mem_of_nodup prog hprogkeys p hp
      have h2 : getVal prog s.key = some true := hall s hs
      rw [hskey, h1] at h2
      exact Option.some.inj h2
    have hct : countTrue prog = prog.length := (countTrue_eq_length_iff prog).mpr halltrue
    have h2n : 0 < 2 * frameworkSteps.length := by omega
    simp only [progressPercentage, if_pos hpos]
    rw [hct, hlen]
    rw [show 200 * frameworkSteps.length + frameworkSteps.length
        = 2 * frameworkSteps.length * 100 + frameworkSteps.length from by ring]
    rw [Nat.mul_add_div h2n, Nat.div_eq_of_lt (by omega)]
  · intro hle hpct s hs
    have hpos : 0 < frameworkSteps.length := by
      rcases Nat.eq_zero_or_pos frameworkSteps.length with h0 | h0
      · rw [List.length_eq_zero] at h0
        subst h0
        simp at hs
      · exact h0
    have h2n : 0 < 2 * frameworkSteps.length := by omega
    simp only [progressPercentage, if_pos hpos] at hpct
    have h100 : 100 ≤ (200 * countTrue prog + frameworkSteps.length)
        / (2 * frameworkSteps.length) := by omega
    have hmul := (Nat.le_div_iff_mul_le h2n).mp h100
    have hteq : countTrue prog = prog.length := by omega
    have halltrue : ∀ p ∈ prog, p.2 = true := (countTrue_eq_length_iff prog).mp hteq
    have hkmem : s.key ∈ prog.map Prod.fst := by
      rw [hkeys]
      exact List.mem_map_of_mem FrameworkStage.key hs
    exact getVal_all_true prog halltrue s.key hkmem

/-- Witness for C3 (amended) at a concrete input. -/
theorem claim3_percentage_props_witness :
    ([("a", true)].map Prod.fst = [stageA].map FrameworkStage.key)
    ∧ progressPercentage [stageA] [("a", true)] ≤ 100 :=
  ⟨by decide, (claim3_percentage_props [stageA] [("a", true)] (by decide) (by decide)).1⟩

theorem foldl_append_eq_join (f : FrameworkStage → String) (l : List FrameworkStage)
    (init : String) :
    l.foldl (fun output step => output ++ f step) init = init ++ joinStrings (l.map f) := by
  induction l generalizing init with
  | nil => simp [joinStrings]
  | cons s rest ih => simp [joinStrings, ih, String.append_assoc]

theorem filter_head_eq_find {α : Type} (p : α → Bool) (l : List α) :
    (l.filter p).head? = l.find? p := by
  induction l with
  | nil => rfl
  | cons a t ih =>
      by_cases h : p a = true
      · rw [List.filter_cons_of_pos h, List.find?_cons_of_pos _ h, List.head?_cons]
      · rw [List.filter_cons_of_neg (by simpa using h), List.find?_cons_of_neg _ (by simpa using h), ih]

theorem sectionFor_eq_sectionSpecCI (messages : List Message) (step : FrameworkStage) :
    sectionFor messages step = sectionSpecCI messages step := by
  unfold sectionFor sectionSpecCI
  rw [← filter_head_eq_find]
  cases hf : messages.filter (fun msg =>
      msg.type == Role.assistant && jsIncludes (jsToLower msg.content) (jsToLower step.key)) with
  | nil => simp [List.head?, String.append_assoc]
  | cons m t => simp [List.head?, String.append_assoc]

theorem isCompletedIn_eq (fp : ProgressMap) (s : FrameworkStage) :
    isCompletedIn fp s = (getVal fp s.key == some true) := by
  unfold isCompletedIn
  cases getVal fp s.key with
  | none => rfl
  | some b => cases b <;> rfl

theorem userMessageCount_eq_countP (messages : List Message) :
    userMessageCount messages = messages.countP fun m => m.type == Role.user := by
  rw [userMessageCount, List.countP_eq_length_filter]

/-- C4 (amended): the export document is exactly as the claim describes once
its substring test is read case-insensitively (the source lower-cases both the
message content and the stage key) — fixed header, then, in the configured
stage order, one section for every stage whose progress entry is true and none
for any other stage, each section consisting of the icon-and-title header, the
stage description, and the content of the first assistant message in history
order whose lower-cased text contains the lower-cased stage key (header and
description alone when no such message exists), with a trailing summary
counting only user-authored messages. -/
theorem claim4_generate_spec (dateStr : String) (messages : List Message)
    (frameworkSteps : List FrameworkStage) (frameworkProgress : ProgressMap)
    (progressPct : Nat) :
    generateStructuredOutput dateStr messages frameworkSteps frameworkProgress progressPct
      = renderSpecCI dateStr messages frameworkSteps frameworkProgress progressPct := by
  have hpred : isCompletedIn frameworkProgress
      = fun s => getVal frameworkProgress s.key == some true :=
    funext (isCompletedIn_eq frameworkProgress)
  have hsec : sectionFor messages = sectionSpecCI messages :=
    funext (sectionFor_eq_sectionSpecCI messages)
  simp only [generateStructuredOutput, renderSpecCI]
  rw [foldl_append_eq_join, hpred, hsec, userMessageCount_eq_countP]

/-- Assistant message whose content contains the stage key only in a different
letter case, used in the C4 counterexample. -/
def mixedCaseMsg : Message :=
  { type := Role.assistant, content := "Das PROBLEM ist deutlich sichtbar", timestamp := 0 }

set_option maxRecDepth 4000 in
/-- C4 counterexample: read verbatim — the section body is the first assistant
message whose text contains the stage key as a substring — the claim fails,
because the source compares lower-cased text: for a message containing the key
only in upper case the generated document includes the message while the
verbatim reading yields an empty section body. -/
theorem claim4_generate_counterexample :
    generateStructuredOutput "01.01.2024" [mixedCaseMsg] [problemStage] [("problem", true)] 100
      ≠ renderSpecVerbatim "01.01.2024" [mixedCaseMsg] [problemStage] [("problem", true)] 100 := by
  decide

/-- C8: export generation is deterministic — the output factors as a constant
prefix, then the generation date string at its fixed header position, then a
remainder computed only from the message history, stage list, progress map and
percentage; two runs over identical inputs can differ only in that date
string. -/
theorem claim8_generate_deterministic (dateStr : String) (messages : List Message)
    (frameworkSteps : List FrameworkStage) (frameworkProgress : ProgressMap)
    (progressPct : Nat) :
    generateStructuredOutput dateStr messages frameworkSteps frameworkProgress progressPct
      = "# Design Thinking Analyse\n\n" ++ "**Datum:** " ++ dateStr
        ++ outputAfterDate messages frameworkSteps frameworkProgress progressPct := by
  simp only [generateStructuredOutput, outputAfterDate]
  rw [foldl_append_eq_join]
  simp [String.append_assoc]

/-- C6: when the model provider fails to produce a completion, the user
message recorded before the provider call stays in the conversation history —
the resulting history is the old one plus the user message plus an
assistant-styled failure message beginning with the connection-error text —
and the progress map is left unchanged. -/
theorem claim6_provider_error_keeps_history (newMessage : String)
    (frameworkSteps : List FrameworkStage) (st : AppChatState) (tUser tReply : Nat)
    (e : String) (h : jsTrim newMessage ≠ "") :
    (handleSendMessage newMessage false frameworkSteps st tUser tReply
        (Except.error e)).messages
      = st.messages ++
        [{ type := Role.user, content := jsTrim newMessage, timestamp := tUser },
         { type := Role.assistant, content := connectionErrorContent e, timestamp := tReply }]
    ∧ ({ type := Role.user, content := jsTrim newMessage, timestamp := tUser } : Message)
        ∈ (handleSendMessage newMessage false frameworkSteps st tUser tReply
            (Except.error e)).messages
    ∧ (∃ suffix, connectionErrorContent e
        = "Entschuldigung, es gab einen Fehler bei der Verbindung." ++ suffix)
    ∧ (handleSendMessage newMessage false frameworkSteps st tUser tReply
        (Except.error e)).frameworkProgress = st.frameworkProgress := by
  have hres : handleSendMessage newMessage false frameworkSteps st tUser tReply (Except.error e)
      = { messages := st.messages ++
            [{ type := Role.user, content := jsTrim newMessage, timestamp := tUser },
             { type := Role.assistant, content := connectionErrorContent e, timestamp := tReply }]
          frameworkProgress := st.frameworkProgress } := by
    simp [handleSendMessage, h]
  refine ⟨?_, ?_, ⟨_, rfl⟩, ?_⟩
  · rw [hres]
  · rw [hres]
    simp
  · rw [hres]

/-- Witness for C6 at a concrete input. -/
theorem claim6_provider_error_keeps_history_witness :
    jsTrim "Hallo Coach" ≠ "" ∧
    (handleSendMessage "Hallo Coach" false [] { messages := [], frameworkProgress := [] }
        1 2 (Except.error "Failed to fetch")).messages
      = ([] : List Message) ++
        [{ type := Role.user, content := jsTrim "Hallo Coach", timestamp := 1 },
         { type := Role.assistant, content := connectionErrorContent "Failed to fetch",
           timestamp := 2 }] :=
  ⟨by decide, (claim6_provider_error_keeps_history "Hallo Coach" []
    { messages := [], frameworkProgress := [] } 1 2 "Failed to fetch" (by decide)).1⟩

/-- Previously loaded framework state used in the C7 counterexample. -/
def prevState : FrameworkState :=
  { frameworkSteps := [problemStage], frameworkProgress := [("problem", false)] }

/-- C7 counterexample: a reload whose response is syntactically valid but has
no stage list produces an error, and the App handler then clears the stage
list instead of retaining the previously loaded one, refuting the claim that
a failed reload leaves the previous configuration readable. -/
theorem claim7_reload_counterexample :
    (chatAPI.loadFrameworkStages true 200 none
      = Except.error "Framework stages not found in config")
    ∧ (appLoadFrameworkStages prevState
        (chatAPI.loadFrameworkStages true 200 none)).frameworkSteps
      ≠ prevState.frameworkSteps :=
  ⟨rfl, by decide⟩

/-- C7 (amended): a configuration reload that fails — non-ok response, or a
response without the required stage list — surfaces an error, and the App
handler reacts by clearing the stage list and progress map to empty values;
the previously loaded configuration is not retained. -/
theorem claim7_reload_failure_clears (prev : FrameworkState) (ok : Bool) (status : Nat) :
    (∃ msg, chatAPI.loadFrameworkStages ok status none = Except.error msg)
    ∧ (∀ e, appLoadFrameworkStages prev (Except.error e)
        = { frameworkSteps := [], frameworkProgress := [] }) := by
  constructor
  · cases ok with
    | false => exact ⟨_, rfl⟩
    | true => exact ⟨_, rfl⟩
  · intro e
    rfl

/-- C10: session id stability — two successive getSessionId calls with no
intervening removal return the same id, the store is unchanged by the second
call, and on an empty store the first call generates and stores the id
session-(now). -/
theorem claim10_session_id_stable (store : Option String) (t1 t2 : Nat) :
    ((sessionUtils.getSessionId t2 (sessionUtils.getSessionId t1 store).2).1
        = (sessionUtils.getSessionId t1 store).1
      ∧ (sessionUtils.getSessionId t2 (sessionUtils.getSessionId t1 store).2).2
        = (sessionUtils.getSessionId t1 store).2)
    ∧ (∀ t : Nat, sessionUtils.getSessionId t none
        = ("session-" ++ toString t, some ("session-" ++ toString t))) := by
  have hne : ∀ t : Nat, ("session-" ++ toString t) ≠ "" := by
    intro t h
    have hlen := congrArg String.length h
    rw [String.length_append] at hlen
    have h8 : "session-".length = 8 := rfl
    have h0 : "".length = 0 := rfl
    omega
  constructor
  · cases store with
    | none => simp [sessionUtils.getSessionId, hne t1]
    | some s =>
        by_cases hs : s = ""
        · subst hs
          simp [sessionUtils.getSessionId, hne t1]
        · simp [sessionUtils.getSessionId, hs]
  · intro t
    rfl

end DTCoach
